import Mathlib

/-!
Verification of the logspout log-shipping agent (`src/logspout.go`) against its
natural-language specification.

The file is a shallow embedding of the Go source. Go strings are modelled as
Lean `String`s (the payloads involved are ASCII, so byte length and character
length agree), Go maps of type `map[string]interface{}` as association lists
with overwrite-on-insert, `time.Time` as an absolute instant (seconds since the
Unix epoch) together with the zone offset the process environment supplies, and
the side effects of each streamer adapter (connections opened, datagrams sent,
documents indexed) as explicit event lists. Functions that the repository
declares outside `src/logspout.go` (the `Log`, `Target`, `Source` and
`K8sContainer` declarations and the attach manager's `Get`/`Listen` contract)
are modelled from the specification and marked as such in their doc comments.
-/

set_option autoImplicit false

namespace Logspout

/-! ## Go string primitives used by the source -/

/-- Model of Go `strings.Contains(s, sub)`: `sub` occurs as a contiguous
substring of `s` (an empty `sub` always occurs). -/
def goContains (s sub : String) : Bool :=
  (s.toList.tails).any (fun t => sub.toList.isPrefixOf t)

/-! ## The data model -/

/-- Modelled from the spec: the `Log` record type is declared outside
`src/logspout.go`; §3 ("container id (full), display name, image reference,
stream type (stdout|stderr), raw payload") and the §6 wire shape
`(name, id, image, type, data)` give its fields, and `src/logspout.go` reads
`.Name`, `.ID`, `.Image`, `.Type` and `.Data` from it.  `Type` is a reserved
word in Lean, so that field is spelled `Type'`. -/
structure Log where
  Name : String
  ID : String
  Image : String
  Type' : String
  Data : String
deriving DecidableEq

/-- Modelled from the spec: the `Target` type is declared outside
`src/logspout.go`; §3 gives a route's target as `(type, address)` plus an
optional append-tag, and `src/logspout.go` reads `.Type`, `.Addr` and
`.AppendTag` from it. -/
structure Target where
  Type' : String
  Addr : String
  AppendTag : String
deriving DecidableEq

/-- Modelled from the spec: the `Source` selector is declared outside
`src/logspout.go`; §3 gives its predicates `id`, `name`, `filter`, and
`src/logspout.go` assigns `.ID`, `.Name` and `.Filter`. -/
structure Source where
  ID : String := ""
  Name : String := ""
  Filter : String := ""
deriving DecidableEq

/-- Modelled from the spec: `Source.All` is declared outside `src/logspout.go`;
§3 says "all" is the Source with no active predicate, so `All` holds when no
predicate field is set. -/
def Source.All (s : Source) : Bool :=
  s.ID == "" && s.Name == "" && s.Filter == ""

/-- Modelled from the spec: the `K8sContainer` type is declared outside
`src/logspout.go`; §4.3 gives its fields (workload name, instance, namespace)
and `src/logspout.go` assigns `.Name`, `.Pod` and `.Namespace`.  The zero value
(all fields empty) is what `&K8sContainer{}` builds. -/
structure K8sContainer where
  Name : String := ""
  Pod : String := ""
  Namespace : String := ""
deriving DecidableEq

/-! ## The per-record stream-type filter

Each streamer adapter runs `typestr := "," + strings.Join(types, ",") + ","`
once and then, per record, skips the record unless
`typestr == ",," || strings.Contains(typestr, logline.Type)`. -/

/-- Model of Go `strings.Join(elems, sep)`. -/
def goJoin (sep : String) : List String → String
  | [] => ""
  | [x] => x
  | x :: y :: xs => x ++ sep ++ goJoin sep (y :: xs)

/-- The `typestr` value each streamer computes from the route's accepted
stream types. -/
def typestrOf (types : List String) : String :=
  "," ++ goJoin "," types ++ ","

/-- Whether a record of stream type `t` passes the per-record check
(`typestr != ",," && !strings.Contains(typestr, logline.Type)` skips it). -/
def acceptsType (types : List String) (t : String) : Bool :=
  typestrOf types == ",," || goContains (typestrOf types) t

/-! ## The colorizer -/

/-- The `Colorizer` map from key to color index, as an insertion-ordered
association list (`len(c)` is its length). -/
abbrev Colorizer := List (String × Nat)

/-- Lookup in the colorizer map (`i, exists := c[key]`). -/
def colLookup : List (String × Nat) → String → Option Nat
  | [], _ => none
  | (k, v) :: rest, key => if k = key then some v else colLookup rest key

/-- The escape code `Colorizer.Get` builds for color index `i`:
`"\x1b[" + bright + "3" + strconv.Itoa(7-(i%7)) + "m"` where `bright` is
`"1;"` unless `i%14 > 6`. -/
def colorCode (i : Nat) : String :=
  "\x1b[" ++ (if i % 14 > 6 then "" else "1;") ++ "3" ++ toString (7 - i % 7) ++ "m"

/-- `Colorizer.Get`: an unseen key is assigned the next index `len(c)`; the
escape code for the key's index is returned along with the updated map. -/
def Colorizer.Get (c : Colorizer) (key : String) : Colorizer × String :=
  match colLookup c key with
  | some i => (c, colorCode i)
  | none => (c ++ [(key, c.length)], colorCode c.length)

/-! ## JSON encoding of a record (the `marshal` helper / `json.NewEncoder`) -/

/-- Lower-case hex digit. -/
def hexDigitChar (n : Nat) : Char :=
  if n < 10 then Char.ofNat (48 + n) else Char.ofNat (87 + (n % 16))

/-- How Go `encoding/json` escapes one character of a string (with the
encoder's default HTML escaping of `<`, `>` and `&`). -/
def jsonEscapeChar (c : Char) : List Char :=
  if c = '"' then ['\\', '"']
  else if c = '\\' then ['\\', '\\']
  else if c = '\n' then ['\\', 'n']
  else if c = '\r' then ['\\', 'r']
  else if c = '\t' then ['\\', 't']
  else if c.toNat < 32 || c = '<' || c = '>' || c = '&' then
    ['\\', 'u', '0', '0', hexDigitChar (c.toNat / 16), hexDigitChar (c.toNat % 16)]
  else [c]

/-- A Go JSON string literal for `s`. -/
def jsonQuote (s : String) : String :=
  "\"" ++ String.mk ((s.toList.map jsonEscapeChar).flatten) ++ "\""

/-- Modelled from the spec: the JSON shape of a `Log` (the struct tags live
outside `src/logspout.go`); §6 gives the wire shape
`\x7bname, id, image, type, data\x7d`. -/
def goMarshalLog (l : Log) : String :=
  "\x7b\"name\":" ++ jsonQuote l.Name ++ ",\"id\":" ++ jsonQuote l.ID ++
    ",\"image\":" ++ jsonQuote l.Image ++ ",\"type\":" ++ jsonQuote l.Type' ++
    ",\"data\":" ++ jsonQuote l.Data ++ "\x7d"

/-! ## The syslog streamer

For each accepted record, `syslogStreamer` dials a new syslog connection with
priority `syslog.LOG_USER|syslog.LOG_INFO` and tag `logline.Name +
target.AppendTag`, and writes the payload.  `assert(err, "syslog")` turns any
dial error into `log.Fatal`, which terminates the whole process, so the run
stops at the first failing dial.  The environment is modelled by the oracle
`dialErr k`: whether the k-th dial of the run fails. -/

/-- Go `syslog.LOG_INFO` (severity 6). -/
def LOG_INFO : Nat := 6

/-- Go `syslog.LOG_USER` (facility 1, stored shifted left by 3). -/
def LOG_USER : Nat := 8

/-- The priority `syslogStreamer` dials with: `LOG_USER|LOG_INFO`. -/
def syslogPriority : Nat := Nat.lor LOG_USER LOG_INFO

/-- Observable effects of the syslog adapter. -/
inductive SyslogEvent where
  | dial (network addr : String) (priority : Nat) (tag : String)
  | write (msg : String)
deriving DecidableEq

/-- The loop of `syslogStreamer`, threading the count of dials made so far.
The second component reports whether the run ended in `log.Fatal`. -/
def syslogRun (target : Target) (types : List String) (dialErr : Nat → Bool) :
    Nat → List Log → List SyslogEvent × Bool
  | _, [] => ([], false)
  | k, l :: rest =>
    if acceptsType types l.Type' then
      let d := SyslogEvent.dial "udp" target.Addr syslogPriority (l.Name ++ target.AppendTag)
      if dialErr k then ([d], true)
      else
        let r := syslogRun target types dialErr (k + 1) rest
        (d :: SyslogEvent.write l.Data :: r.1, r.2)
    else syslogRun target types dialErr k rest

/-- `syslogStreamer`: consume the whole channel (modelled as the list of
records the channel delivers). -/
def syslogStreamer (target : Target) (types : List String) (stream : List Log)
    (dialErr : Nat → Bool) : List SyslogEvent × Bool :=
  syslogRun target types dialErr 0 stream

/-! ## The UDP streamer

`udpStreamer` resolves and dials one UDP socket before the loop (errors there
are `assert`-fatal), then JSON-encodes every accepted record onto the socket.
`encoder.Encode(logline)` appends a newline, and its error result is discarded,
so send failures (the oracle `sendErr`) cannot influence the run. -/

/-- Observable effects of the UDP adapter. -/
inductive UdpEvent where
  | dial (network addr : String)
  | send (datagram : String)
deriving DecidableEq

/-- The `for logline := range logstream` loop of `udpStreamer`: each accepted
record is JSON-encoded onto the socket; the error `encoder.Encode` returns is
discarded, so the loop always continues with the next record. -/
def udpLoop (types : List String) : List Log → List UdpEvent
  | [] => []
  | l :: rest =>
    if acceptsType types l.Type' then
      UdpEvent.send (goMarshalLog l ++ "\n") :: udpLoop types rest
    else udpLoop types rest

/-- `udpStreamer`.  `resolveErr`/`dialErr` say whether the startup resolve or
dial fails (fatal); `sendErr k` says whether the k-th datagram is lost, which
the code never looks at.  The second component reports a fatal exit. -/
def udpStreamer (target : Target) (types : List String) (stream : List Log)
    (resolveErr dialErr : Bool) (sendErr : Nat → Bool) : List UdpEvent × Bool :=
  if resolveErr then ([], true)
  else if dialErr then ([], true)
  else (UdpEvent.dial "udp" target.Addr :: udpLoop types stream, false)

/-! ## The GET /logs handler -/

/-- What one request to the `GET /logs` handler produces: a 404, a streaming
response built from the parsed `Source` (with the `multi` flag passed to
`httpStreamer`), or a runtime fault from the out-of-range slice
`params["value"][:12]`. -/
inductive LogsResult where
  | ok (source : Source) (multi : Bool)
  | notFound
  | sliceFault
deriving DecidableEq

/-- The tail of the handler after the `switch`: 404 when an `id` predicate
names a container the attach manager does not hold
(`source.ID != "" && attacher.Get(source.ID) == nil`), otherwise subscribe and
stream with `multi = source.All() || source.Filter != ""`. -/
def finishLogs (attachedGet : String → Bool) (source : Source) : LogsResult :=
  if source.ID != "" && !attachedGet source.ID then LogsResult.notFound
  else LogsResult.ok source (source.All || source.Filter != "")

/-- The `GET /logs` handler.  `attachedGet id` models
`attacher.Get(id) != nil` (the attach manager lives outside
`src/logspout.go`; §4.1 specifies `Get` as the existence lookup).  The `id`
branch takes `params["value"][:12]`, which in Go faults unless the value has
at least 12 bytes. -/
def logsHandler (attachedGet : String → Bool) (predicate value : String) : LogsResult :=
  if predicate == "id" && value != "" then
    if value.length < 12 then LogsResult.sliceFault
    else finishLogs attachedGet { ID := String.mk (value.toList.take 12) }
  else if predicate == "name" && value != "" then
    finishLogs attachedGet { Name := value }
  else if predicate == "filter" && value != "" then
    finishLogs attachedGet { Filter := value }
  else finishLogs attachedGet {}

/-! ## The HTTP streamer -/

/-- Right-justified space padding, Go `fmt.Sprintf("%Ns", s)`. -/
def padLeftSpaces (w : Nat) (s : String) : String :=
  String.mk (List.replicate (w - s.length) ' ') ++ s

/-- The loop of `httpStreamer`: per accepted record one chunk is written (and
flushed).  State threaded across records: the colorizer and `nameWidth`. -/
def httpLoop (usejson usecolor multi : Bool) (typesParam : String) :
    Colorizer → Nat → List Log → List String
  | _, _, [] => []
  | colors, nameWidth, l :: rest =>
    if typesParam != "" && l.Type' != typesParam then
      httpLoop usejson usecolor multi typesParam colors nameWidth rest
    else if usejson then
      (goMarshalLog l ++ "\n") :: httpLoop usejson usecolor multi typesParam colors nameWidth rest
    else if multi then
      let w := if l.Name.length > nameWidth then l.Name.length else nameWidth
      if usecolor then
        let r := Colorizer.Get colors l.Name
        (r.2 ++ padLeftSpaces w l.Name ++ "|" ++ l.Data ++ "\x1b[0m\n") ::
          httpLoop usejson usecolor multi typesParam r.1 w rest
      else
        (padLeftSpaces w l.Name ++ "|" ++ l.Data ++ "\n") ::
          httpLoop usejson usecolor multi typesParam colors w rest
    else
      (l.Data ++ "\n") :: httpLoop usejson usecolor multi typesParam colors nameWidth rest

/-- `httpStreamer`: a fresh response-scoped state (`nameWidth = 16`, a fresh
empty colorizer made by `make(Colorizer)` when the `colors` query parameter is
not `off`). -/
def httpStreamer (colorsParam acceptHeader typesParam : String) (multi : Bool)
    (stream : List Log) : List String :=
  httpLoop (acceptHeader == "application/json") (colorsParam != "off") multi
    typesParam [] 16 stream

/-! ## JSON values and the decoder (`encoding/json.Unmarshal`) -/

/-- A decoded JSON value.  Numbers keep their literal text (no claim depends
on numeric value). -/
inductive JValue where
  | null
  | bool (b : Bool)
  | num (lit : String)
  | str (s : String)
  | arr (elems : List JValue)
  | obj (fields : List (String × JValue))

/-- JSON insignificant whitespace. -/
def jsonWs (c : Char) : Bool :=
  c = ' ' || c = '\t' || c = '\n' || c = '\r'

/-- Skip JSON whitespace. -/
def skipWs (s : List Char) : List Char :=
  s.dropWhile jsonWs

/-- Value of a hex digit. -/
def hexVal (c : Char) : Option Nat :=
  if '0' ≤ c ∧ c ≤ '9' then some (c.toNat - 48)
  else if 'a' ≤ c ∧ c ≤ 'f' then some (c.toNat - 87)
  else if 'A' ≤ c ∧ c ≤ 'F' then some (c.toNat - 55)
  else none

/-- Prepend a decoded character to a string-parse result. -/
def pushChar (c : Char) : Option (List Char × List Char) → Option (List Char × List Char)
  | none => none
  | some (s, rest) => some (c :: s, rest)

/-- Parse the body of a JSON string (the opening quote already consumed),
returning the decoded characters and the input after the closing quote.
An unpaired surrogate escape decodes to U+FFFD as in Go. -/
def parseJString : List Char → Option (List Char × List Char)
  | [] => none
  | '"' :: rest => some ([], rest)
  | '\\' :: esc =>
    match esc with
    | '"' :: r => pushChar '"' (parseJString r)
    | '\\' :: r => pushChar '\\' (parseJString r)
    | '/' :: r => pushChar '/' (parseJString r)
    | 'b' :: r => pushChar (Char.ofNat 8) (parseJString r)
    | 'f' :: r => pushChar (Char.ofNat 12) (parseJString r)
    | 'n' :: r => pushChar '\n' (parseJString r)
    | 'r' :: r => pushChar '\r' (parseJString r)
    | 't' :: r => pushChar '\t' (parseJString r)
    | 'u' :: h1 :: h2 :: h3 :: h4 :: r =>
      match hexVal h1, hexVal h2, hexVal h3, hexVal h4 with
      | some a, some b, some c, some d =>
        let n := ((a * 16 + b) * 16 + c) * 16 + d
        let ch := if 0xD800 ≤ n ∧ n < 0xE000 then Char.ofNat 0xFFFD else Char.ofNat n
        pushChar ch (parseJString r)
      | _, _, _, _ => none
    | _ => none
  | c :: rest => if c.toNat < 32 then none else pushChar c (parseJString rest)

/-- Decimal digit. -/
def isDigitCh (c : Char) : Bool :=
  '0' ≤ c && c ≤ '9'

/-- One or more decimal digits. -/
def digits1 (s : List Char) : Option (List Char × List Char) :=
  let d := s.takeWhile isDigitCh
  if d.isEmpty then none else some (d, s.drop d.length)

/-- The integer part of a JSON number: `0`, or a nonzero digit followed by
digits. -/
def parseIntPart : List Char → Option (List Char × List Char)
  | [] => none
  | c :: rest =>
    if c = '0' then some (['0'], rest)
    else if '1' ≤ c ∧ c ≤ '9' then
      let d := rest.takeWhile isDigitCh
      some (c :: d, rest.drop d.length)
    else none

/-- Optional fraction part `.digits`. -/
def parseFracPart (s : List Char) : Option (List Char × List Char) :=
  match s with
  | '.' :: rest =>
    match digits1 rest with
    | some (d, r) => some ('.' :: d, r)
    | none => none
  | _ => some ([], s)

/-- Optional exponent part `e[+-]digits`. -/
def parseExpPart (s : List Char) : Option (List Char × List Char) :=
  match s with
  | c :: rest =>
    if c = 'e' ∨ c = 'E' then
      match rest with
      | sgn :: r2 =>
        if sgn = '+' ∨ sgn = '-' then
          match digits1 r2 with
          | some (d, r) => some (c :: sgn :: d, r)
          | none => none
        else
          match digits1 rest with
          | some (d, r) => some (c :: d, r)
          | none => none
      | [] => none
    else some ([], s)
  | [] => some ([], s)

/-- A JSON number literal, with optional leading minus. -/
def parseNumber (s : List Char) : Option (List Char × List Char) :=
  let (sgn, s1) := match s with
    | '-' :: rest => (['-'], rest)
    | _ => (([] : List Char), s)
  match parseIntPart s1 with
  | none => none
  | some (ip, s2) =>
    match parseFracPart s2 with
    | none => none
    | some (fp, s3) =>
      match parseExpPart s3 with
      | none => none
      | some (ep, s4) => some (sgn ++ ip ++ fp ++ ep, s4)

mutual

/-- Parse one JSON value after skipping whitespace.  The fuel only bounds the
recursion; `jsonParse` supplies more than any input can consume. -/
def parseVal : Nat → List Char → Option (JValue × List Char)
  | 0, _ => none
  | fuel + 1, s =>
    match skipWs s with
    | [] => none
    | c :: rest =>
      if c = '"' then
        match parseJString rest with
        | some (cs, r) => some (JValue.str (String.mk cs), r)
        | none => none
      else if c = '{' then
        match skipWs rest with
        | '}' :: r => some (JValue.obj [], r)
        | _ =>
          match parseObjFields fuel rest with
          | some (flds, r) => some (JValue.obj flds, r)
          | none => none
      else if c = '[' then
        match skipWs rest with
        | ']' :: r => some (JValue.arr [], r)
        | _ =>
          match parseArrElems fuel rest with
          | some (vs, r) => some (JValue.arr vs, r)
          | none => none
      else if c = 't' then
        if ['r', 'u', 'e'].isPrefixOf rest then some (JValue.bool true, rest.drop 3) else none
      else if c = 'f' then
        if ['a', 'l', 's', 'e'].isPrefixOf rest then some (JValue.bool false, rest.drop 4)
        else none
      else if c = 'n' then
        if ['u', 'l', 'l'].isPrefixOf rest then some (JValue.null, rest.drop 3) else none
      else
        match parseNumber (c :: rest) with
        | some (lit, r) => some (JValue.num (String.mk lit), r)
        | none => none

/-- Parse the comma-separated elements of a non-empty array, up to and
including the closing bracket. -/
def parseArrElems : Nat → List Char → Option (List JValue × List Char)
  | 0, _ => none
  | fuel + 1, s =>
    match parseVal fuel s with
    | none => none
    | some (v, rest) =>
      match skipWs rest with
      | ',' :: r2 =>
        match parseArrElems fuel r2 with
        | some (vs, r3) => some (v :: vs, r3)
        | none => none
      | ']' :: r2 => some ([v], r2)
      | _ => none

/-- Parse the members of a non-empty object, up to and including the closing
brace. -/
def parseObjFields : Nat → List Char → Option (List (String × JValue) × List Char)
  | 0, _ => none
  | fuel + 1, s =>
    match skipWs s with
    | '"' :: rest =>
      match parseJString rest with
      | none => none
      | some (key, r1) =>
        match skipWs r1 with
        | ':' :: r2 =>
          match parseVal fuel r2 with
          | none => none
          | some (v, r3) =>
            match skipWs r3 with
            | ',' :: r4 =>
              match parseObjFields fuel r4 with
              | some (flds, r5) => some ((String.mk key, v) :: flds, r5)
              | none => none
            | '}' :: r4 => some ([(String.mk key, v)], r4)
            | _ => none
        | _ => none
    | _ => none

end

/-- Go `json.Unmarshal`-style top-level parse: one value, then only trailing
whitespace. -/
def jsonParse (s : String) : Option JValue :=
  match parseVal (2 * s.length + 2) s.toList with
  | some (v, rest) => if skipWs rest = [] then some v else none
  | none => none

/-! ## The document map (`map[string]interface\x7b\x7d`) -/

/-- A timestamp as `elasticsearchStreamer` takes it: `time.Now()` yields the
absolute instant (seconds since the Unix epoch) and the zone offset the
process environment's location applies to the wall clock. -/
structure GoTime where
  sec : Int
  offset : Int
deriving DecidableEq

/-- A value stored in the document map: a decoded JSON value, a `time.Time`,
or a Go string. -/
inductive DocVal where
  | jv (v : JValue)
  | time (t : GoTime)
  | str (s : String)

/-- The document map, as an association list without duplicate keys
(inserting an existing key overwrites in place). -/
abbrev Doc := List (String × DocVal)

/-- Map lookup `m[k]`. -/
def docLookup : Doc → String → Option DocVal
  | [], _ => none
  | (k, v) :: rest, key => if k = key then some v else docLookup rest key

/-- Map assignment `m[k] = v`. -/
def docInsert : Doc → String → DocVal → Doc
  | [], key, v => [(key, v)]
  | (k, w) :: rest, key, v =>
    if k = key then (k, v) :: rest else (k, w) :: docInsert rest key v

/-- The keys of a document. -/
def docKeys (d : Doc) : List String :=
  d.map Prod.fst

/-- Store the fields of a decoded JSON object into an existing map, later
duplicates overwriting earlier ones, as `json.Unmarshal` does into a map. -/
def mergeJsonFields (base : Doc) : List (String × JValue) → Doc
  | [] => base
  | (k, v) :: rest => mergeJsonFields (docInsert base k (DocVal.jv v)) rest

/-- Go `json.Unmarshal(data, &m)` where `m : map[string]interface\x7b\x7d`
(`none` models a nil map).  Outer `none` is an unmarshal error (invalid JSON,
or a non-object top-level value), after which the code replaces the map;
decoding a JSON object reuses the existing map, keeping entries it does not
overwrite; decoding JSON `null` sets the map to nil. -/
def goUnmarshalMap (m : Option Doc) (data : String) : Option (Option Doc) :=
  match jsonParse data with
  | some (JValue.obj flds) => some (some (mergeJsonFields (m.getD []) flds))
  | some JValue.null => some none
  | some _ => none
  | none => none

/-! ## The k8s container-name pattern

`regexp.MustCompile` of `(?:[^_]+)_([^\.]+)\.(?:[^_]+)_([^\.]+)\.([^\.]+)`
anchored by a leading caret: a sequence of one-or-more runs over
single-character complements and literal separators.  `FindStringSubmatch`
uses leftmost-first (greedy, backtracking) semantics, which the element list
below reproduces: each `plusNot` element tries its longest possible run first. -/

/-- One element of the (fixed) pattern: a literal character, or a greedy
one-or-more run of characters other than `bad`, optionally capturing. -/
inductive RElem where
  | lit (c : Char)
  | plusNot (bad : Char) (capture : Bool)
deriving DecidableEq

/-- Match the element list against a prefix of `xs` (the pattern is anchored
at the start, the remainder is unconstrained), returning the captures in
order; greedy elements backtrack from their longest run, which is
leftmost-first semantics. -/
def matchElems : List RElem → List Char → Option (List String)
  | [], _ => some []
  | RElem.lit c :: es, xs =>
    match xs with
    | [] => none
    | x :: rest => if x = c then matchElems es rest else none
  | RElem.plusNot bad cap :: es, xs =>
    let maxLen := (xs.takeWhile (fun a => a ≠ bad)).length
    ((List.range maxLen).map (fun k => maxLen - k)).findSome? (fun n =>
      match matchElems es (xs.drop n) with
      | some caps => some (if cap then String.mk (xs.take n) :: caps else caps)
      | none => none)

/-- The element list of `k8sContainerRE`:
`^(?:[^_]+)_([^\.]+)\.(?:[^_]+)_([^\.]+)\.([^\.]+)`. -/
def k8sContainerRE : List RElem :=
  [RElem.plusNot '_' false, RElem.lit '_', RElem.plusNot '.' true, RElem.lit '.',
   RElem.plusNot '_' false, RElem.lit '_', RElem.plusNot '.' true, RElem.lit '.',
   RElem.plusNot '.' true]

/-- The `K8sContainer` the loop builds for a record: fresh zero value, fields
filled from the three capture groups when `FindStringSubmatch` matches. -/
def k8sEnrich (name : String) : K8sContainer :=
  match matchElems k8sContainerRE name.toList with
  | some (c :: p :: n :: _) => { Name := c, Pod := p, Namespace := n }
  | _ => ({} : K8sContainer)

/-! ## Date stamping (`now.Format("2006.01.02")`) -/

/-- Decimal digit character. -/
def decChar (d : Nat) : Char :=
  Char.ofNat (48 + d)

/-- Big-endian decimal digits of `n` with recursion fuel; any fuel at least
the digit count (and positive) yields the digits. -/
def decChars : Nat → Nat → List Char
  | 0, _ => []
  | f + 1, n => if n < 10 then [decChar n] else decChars f (n / 10) ++ [decChar (n % 10)]

/-- Decimal rendering of a natural number (most significant digit first). -/
def decStr (n : Nat) : List Char :=
  decChars (n + 1) n

/-- Zero-pad a digit string on the left to width `w`. -/
def padZeros (w : Nat) (ds : List Char) : List Char :=
  List.replicate (w - ds.length) '0' ++ ds

/-- Civil (proleptic Gregorian) date of a day count since 1970-01-01, the
standard conversion (Go's `absDate` computes the same calendar date). -/
def civilFromDays (z0 : Int) : Int × Nat × Nat :=
  let z : Int := z0 + 719468
  let era : Int := Int.fdiv z 146097
  let doe : Nat := (z - era * 146097).toNat
  let yoe : Nat := (doe - doe / 1460 + doe / 36524 - doe / 146096) / 365
  let y : Int := (yoe : Int) + era * 400
  let doy : Nat := doe - (365 * yoe + yoe / 4 - yoe / 100)
  let mp : Nat := (5 * doy + 2) / 153
  let d : Nat := doy - (153 * mp + 2) / 5 + 1
  let m : Nat := if mp < 10 then mp + 3 else mp - 9
  (if m ≤ 2 then y + 1 else y, m, d)

/-- A year as Go's `Format` stamps it with layout `2006`: zero-padded to four
digits, sign in front for negative years. -/
def yearChars (y : Int) : List Char :=
  if y < 0 then '-' :: padZeros 4 (decStr y.natAbs) else padZeros 4 (decStr y.toNat)

/-- The layout `2006.01.02` applied to a civil date. -/
def formatDateStamp (ymd : Int × Nat × Nat) : String :=
  String.mk (yearChars ymd.1 ++ '.' :: padZeros 2 (decStr ymd.2.1) ++
    '.' :: padZeros 2 (decStr ymd.2.2))

/-- The wall-clock day of a `time.Time`: `Format` renders the instant as seen
through the location's offset. -/
def GoTime.localDays (t : GoTime) : Int :=
  Int.fdiv (t.sec + t.offset) 86400

/-- The UTC day of the instant, for stating the spec's per-UTC-day property. -/
def GoTime.utcDays (t : GoTime) : Int :=
  Int.fdiv t.sec 86400

/-- `now.Format("2006.01.02")`. -/
def goFormatDateStamp (t : GoTime) : String :=
  formatDateStamp (civilFromDays t.localDays)

/-- The target index name `"logstash-" + now.Format(indexDateStampLayout)`. -/
def indexNameAt (t : GoTime) : String :=
  "logstash-" ++ goFormatDateStamp t

/-! ## The elasticsearch streamer loop -/

/-- The assignments after the unmarshal: `container` and `image` always, then
the three `k8s_*` fields when the name matched (`len(k8sContainer.Pod) > 0`). -/
def esFinishDoc (l : Log) (k8s : K8sContainer) (m : Doc) : Doc :=
  let m1 := docInsert m "container" (DocVal.str l.Name)
  let m2 := docInsert m1 "image" (DocVal.str l.Image)
  if k8s.Pod.length > 0 then
    docInsert (docInsert (docInsert m2 "k8s_pod" (DocVal.str k8s.Pod))
        "k8s_container" (DocVal.str k8s.Name))
      "k8s_namespace" (DocVal.str k8s.Namespace)
  else m2

/-- One iteration of the `elasticsearchStreamer` loop body on an accepted
record: build the document in `tmpMap` and hand `(index, document)` to
`indexer.Index`.  `none` is the Go panic `assignment to entry in nil map`,
reached when the payload is JSON `null` (the unmarshal sets the map to nil and
the subsequent assignments fault). -/
def esStep (tmpMap : Option Doc) (l : Log) (now : GoTime) : Option (String × Doc) :=
  let k8s := k8sEnrich l.Name
  let index := "logstash-" ++ goFormatDateStamp now
  match goUnmarshalMap tmpMap l.Data with
  | none =>
    some (index,
      esFinishDoc l k8s [("@timestamp", DocVal.time now), ("message", DocVal.str l.Data)])
  | some none => none
  | some (some mm) =>
    let mm1 :=
      if (docLookup mm "@timestamp").isNone then docInsert mm "@timestamp" (DocVal.time now)
      else mm
    some (index, esFinishDoc l k8s mm1)

/-- The `elasticsearchStreamer` loop over the channel's records, each paired
with the `time.Now()` it is processed at.  `tmpMap` is declared once outside
the loop (`var tmpMap map[string]interface\x7b\x7d`, initially nil) and
reused across iterations; the emitted list holds each `indexer.Index` call's
`(index, document)`.  A nil-map panic kills the goroutine, ending the run. -/
def esLoop (types : List String) :
    Option Doc → List (Log × GoTime) → List (String × Doc)
  | _, [] => []
  | m, (l, now) :: rest =>
    if acceptsType types l.Type' then
      match esStep m l now with
      | none => []
      | some (index, doc) => (index, doc) :: esLoop types (some doc) rest
    else esLoop types m rest

/-- `elasticsearchStreamer`, from the initial nil `tmpMap`.  The connection
setup (`target.Addr` split into domain and port) and the bulk indexer's
bounded queue are I/O plumbing with no bearing on the per-record documents and
are not modelled. -/
def elasticsearchStreamer (types : List String) (stream : List (Log × GoTime)) :
    List (String × Doc) :=
  esLoop types none stream

/-- Whether a UDP event is the opening of a socket. -/
def UdpEvent.isDial : UdpEvent → Bool
  | UdpEvent.dial _ _ => true
  | UdpEvent.send _ => false

/-! ## Theorems -/

theorem udpLoop_eq_filter_map (types : List String) (stream : List Log) :
    udpLoop types stream =
      (stream.filter fun l => acceptsType types l.Type').map
        (fun l => UdpEvent.send (goMarshalLog l ++ "\n")) := by
  induction stream with
  | nil => rfl
  | cons l rest ih =>
    by_cases h : acceptsType types l.Type' = true
    · simp [udpLoop, h, ih]
    · simp [udpLoop, h, ih, List.filter_cons]

theorem syslogRun_ok (target : Target) (types : List String) :
    ∀ (stream : List Log) (k : Nat),
      syslogRun target types (fun _ => false) k stream =
        (((stream.filter fun x => acceptsType types x.Type').map fun x =>
          [SyslogEvent.dial "udp" target.Addr syslogPriority (x.Name ++ target.AppendTag),
           SyslogEvent.write x.Data]).flatten, false)
  | [], k => by simp [syslogRun]
  | l :: rest, k => by
    by_cases h : acceptsType types l.Type' = true
    · simp [syslogRun, h, syslogRun_ok target types rest (k + 1), List.filter_cons]
    · simp [syslogRun, h, syslogRun_ok target types rest k, List.filter_cons]

theorem syslogRun_cons (target : Target) (types : List String) (dialErr : Nat → Bool)
    (k : Nat) (l : Log) (rest : List Log) :
    syslogRun target types dialErr k (l :: rest) =
      if acceptsType types l.Type' then
        if dialErr k then
          ([SyslogEvent.dial "udp" target.Addr syslogPriority (l.Name ++ target.AppendTag)],
            true)
        else
          (SyslogEvent.dial "udp" target.Addr syslogPriority (l.Name ++ target.AppendTag) ::
            SyslogEvent.write l.Data :: (syslogRun target types dialErr (k + 1) rest).1,
            (syslogRun target types dialErr (k + 1) rest).2)
      else syslogRun target types dialErr k rest := rfl

theorem syslogRun_fatal_iff (target : Target) (types : List String) (dialErr : Nat → Bool) :
    ∀ (stream : List Log) (k : Nat),
      (syslogRun target types dialErr k stream).2 = true ↔
        ∃ j, j < (stream.filter fun x => acceptsType types x.Type').length ∧
          dialErr (k + j) = true
  | [], k => by simp [syslogRun]
  | l :: rest, k => by
    rw [syslogRun_cons]
    by_cases ha : acceptsType types l.Type' = true
    · rw [if_pos ha, List.filter_cons, if_pos ha]
      by_cases hd : dialErr k = true
      · rw [if_pos hd]
        constructor
        · intro _
          exact ⟨0, by simp, by simpa using hd⟩
        · intro _
          rfl
      · rw [if_neg hd]
        change (syslogRun target types dialErr (k + 1) rest).2 = true ↔ _
        rw [syslogRun_fatal_iff target types dialErr rest (k + 1)]
        constructor
        · rintro ⟨j, hj, hjd⟩
          refine ⟨j + 1, by simpa using Nat.succ_lt_succ hj, ?_⟩
          have : k + 1 + j = k + (j + 1) := by omega
          rwa [this] at hjd
        · rintro ⟨j, hj, hjd⟩
          match j with
          | 0 =>
            rw [Nat.add_zero] at hjd
            exact absurd hjd hd
          | j + 1 =>
            refine ⟨j, by simpa using Nat.lt_of_succ_lt_succ (by simpa using hj), ?_⟩
            have : k + (j + 1) = k + 1 + j := by omega
            rwa [this] at hjd
    · rw [if_neg ha, List.filter_cons, if_neg ha]
      exact syslogRun_fatal_iff target types dialErr rest k

/-- C5: a GET /logs request with predicate `id` whose (12-character-normalized)
id the attach manager does not hold gets a 404 and never reaches the
subscription (`attacher.Listen` is only called in the `LogsResult.ok` branch);
the handler returns normally rather than crashing.  The id value must have at
least 12 characters for the normalizing slice `params["value"][:12]` to be
defined (C9 covers shorter values). -/
theorem C5_unknown_id_404 (attachedGet : String → Bool) (value : String)
    (hlen : 12 ≤ value.length)
    (habsent : attachedGet (String.mk (value.toList.take 12)) = false) :
    logsHandler attachedGet ("id") value = LogsResult.notFound := by
  have hne : (value != "") = true := by
    rw [bne_iff_ne]
    intro h
    rw [h] at hlen
    simp at hlen
  have hlen' : 12 ≤ value.toList.length := hlen
  have htake : (value.toList.take 12).length = 12 := by
    rw [List.length_take]
    omega
  have hid : (String.mk (value.toList.take 12) != "") = true := by
    rw [bne_iff_ne]
    intro h
    have hdata := congrArg String.data h
    simp only [String.mk] at hdata
    rw [hdata] at htake
    simp at htake
  have hcond1 : (("id" : String) == "id" && value != "") = true := by
    rw [Bool.and_eq_true, hne]
    exact ⟨rfl, rfl⟩
  have hcond2 : (String.mk (value.toList.take 12) != "" &&
      !attachedGet (String.mk (value.toList.take 12))) = true := by
    rw [Bool.and_eq_true, hid, habsent]
    exact ⟨rfl, rfl⟩
  rw [logsHandler, if_pos hcond1, if_neg (by omega), finishLogs, if_pos hcond2]

/-- C5 witness: a twelve-character unknown id on an empty attach manager. -/
theorem C5_unknown_id_404_witness :
    logsHandler (fun _ => false) ("id") ("0123456789ab") = LogsResult.notFound :=
  C5_unknown_id_404 (fun _ => false) ("0123456789ab") (by decide) (by decide)

/-- C9: the handler slices `params["value"][:12]` unconditionally, so an `id`
predicate with a non-empty value of fewer than 12 characters faults
(out-of-range string slice) instead of answering 404. -/
theorem C9_short_id_faults (attachedGet : String → Bool) (value : String)
    (hne : value ≠ "") (hlen : value.length < 12) :
    logsHandler attachedGet ("id") value = LogsResult.sliceFault := by
  have hne' : (value != "") = true := by simpa [bne] using hne
  simp [logsHandler, hne', hlen]

/-- C9 witness: the three-character id value `web`. -/
theorem C9_short_id_faults_witness :
    logsHandler (fun _ => true) ("id") ("web") = LogsResult.sliceFault :=
  C9_short_id_faults (fun _ => true) ("web") (by decide) (by decide)

/-- C6: when the startup resolve and dial succeed, the UDP adapter's event
trace is one socket opened up front and then, per accepted record, exactly one
datagram holding the record's JSON encoding; the trace has exactly one dial,
does not depend on the send-error oracle (the `encoder.Encode` result is
discarded, so the stream continues after any send error), and the run is never
fatal. -/
theorem C6_udp_single_socket_silent_errors (target : Target) (types : List String)
    (stream : List Log) (sendErr sendErr' : Nat → Bool) :
    udpStreamer target types stream false false sendErr =
        udpStreamer target types stream false false sendErr' ∧
    (udpStreamer target types stream false false sendErr).1 =
      UdpEvent.dial "udp" target.Addr ::
        ((stream.filter fun l => acceptsType types l.Type').map
          (fun l => UdpEvent.send (goMarshalLog l ++ "\n"))) ∧
    ((udpStreamer target types stream false false sendErr).1.countP
        (fun e => UdpEvent.isDial e)) = 1 ∧
    (udpStreamer target types stream false false sendErr).2 = false := by
  refine ⟨rfl, ?_, ?_, rfl⟩
  · simp [udpStreamer, udpLoop_eq_filter_map]
  · simp [udpStreamer, List.countP_cons, udpLoop_eq_filter_map, UdpEvent.isDial]

/-! ## Colorizer bookkeeping (for the response-scoped color assignment) -/

/-- The escape codes successive `Get` calls return when one HTTP response
processes `keys` in order: `httpStreamer` calls `colors.Get(logline.Name)` on
each multi-source line, threading the response-local colorizer. -/
def getSeq (c : Colorizer) : List String → List String
  | [] => []
  | k :: ks => (Colorizer.Get c k).2 :: getSeq (Colorizer.Get c k).1 ks

/-- The distinct keys in first-appearance order, continuing from the
already-seen list `acc`. -/
def firstSeen (acc : List String) : List String → List String
  | [] => acc
  | k :: ks => firstSeen (if k ∈ acc then acc else acc ++ [k]) ks

/-- Position of a key in a list of distinct keys. -/
def rankOf : List String → String → Nat
  | [], _ => 0
  | k :: ks, key => if k = key then 0 else rankOf ks key + 1

/-- The colorizer that has assigned indices `k0, k0 + 1, ...` to `keys`. -/
def enumKeys : List String → Nat → Colorizer
  | [], _ => []
  | k :: ks, k0 => (k, k0) :: enumKeys ks (k0 + 1)

theorem colLookup_enumKeys (key : String) :
    ∀ (s : List String) (k0 : Nat),
      colLookup (enumKeys s k0) key =
        if key ∈ s then some (k0 + rankOf s key) else none
  | [], k0 => by simp [enumKeys, colLookup]
  | k :: ks, k0 => by
    by_cases hk : k = key
    · subst hk
      simp [enumKeys, colLookup, rankOf]
    · simp only [enumKeys, colLookup, if_neg hk, colLookup_enumKeys key ks (k0 + 1),
        rankOf, List.mem_cons]
      by_cases hmem : key ∈ ks
      · simp [hmem, if_neg hk, Ne.symm hk]
        omega
      · simp [hmem, if_neg hk, Ne.symm hk]
  termination_by s => s.length

theorem enumKeys_append_one (k : String) :
    ∀ (s : List String) (k0 : Nat),
      enumKeys (s ++ [k]) k0 = enumKeys s k0 ++ [(k, k0 + s.length)]
  | [], k0 => by simp [enumKeys]
  | x :: xs, k0 => by
    have heq : k0 + 1 + xs.length = k0 + (xs.length + 1) := by omega
    show (x, k0) :: enumKeys (xs ++ [k]) (k0 + 1) =
      ((x, k0) :: enumKeys xs (k0 + 1)) ++ [(k, k0 + (xs.length + 1))]
    rw [enumKeys_append_one k xs (k0 + 1), heq, List.cons_append]

theorem enumKeys_length : ∀ (s : List String) (k0 : Nat), (enumKeys s k0).length = s.length
  | [], _ => rfl
  | _ :: xs, k0 => by simp [enumKeys, enumKeys_length xs (k0 + 1)]

theorem firstSeen_extends : ∀ (ks seen : List String), ∃ ext, firstSeen seen ks = seen ++ ext
  | [], seen => ⟨[], by simp [firstSeen]⟩
  | k :: ks, seen => by
    by_cases hmem : k ∈ seen
    · obtain ⟨ext, hext⟩ := firstSeen_extends ks seen
      exact ⟨ext, by simp [firstSeen, hmem, hext]⟩
    · obtain ⟨ext, hext⟩ := firstSeen_extends ks (seen ++ [k])
      exact ⟨[k] ++ ext, by simp [firstSeen, hmem, hext]⟩

theorem rankOf_append (key : String) :
    ∀ (s t : List String), key ∈ s → rankOf (s ++ t) key = rankOf s key
  | [], _, h => by simp at h
  | x :: xs, t, h => by
    by_cases hx : x = key
    · simp [rankOf, hx]
    · have : key ∈ xs := by
        rcases List.mem_cons.1 h with h' | h'
        · exact absurd h'.symm hx
        · exact h'
      simp [rankOf, hx, rankOf_append key xs t this]

theorem rankOf_firstSeen_of_mem (ks seen : List String) (key : String) (h : key ∈ seen) :
    rankOf (firstSeen seen ks) key = rankOf seen key := by
  obtain ⟨ext, hext⟩ := firstSeen_extends ks seen
  rw [hext, rankOf_append key seen ext h]

theorem rankOf_append_self (key : String) :
    ∀ s : List String, key ∉ s → rankOf (s ++ [key]) key = s.length
  | [], _ => by simp [rankOf]
  | x :: xs, h => by
    have hx : x ≠ key := fun hk => h (by simp [hk])
    have : key ∉ xs := fun hk => h (by simp [hk])
    simp [rankOf, hx, rankOf_append_self key xs this]

theorem getSeq_enumKeys :
    ∀ (keys seen : List String),
      getSeq (enumKeys seen 0) keys =
        keys.map (fun k => colorCode (rankOf (firstSeen seen keys) k))
  | [], seen => by simp [getSeq, firstSeen]
  | k :: ks, seen => by
    by_cases hmem : k ∈ seen
    · have hlook : colLookup (enumKeys seen 0) k = some (rankOf seen k) := by
        rw [colLookup_enumKeys k seen 0, if_pos hmem, Nat.zero_add]
      simp only [getSeq, Colorizer.Get, hlook, firstSeen, if_pos hmem, List.map_cons]
      congr 1
      · rw [rankOf_firstSeen_of_mem ks seen k hmem]
      · exact getSeq_enumKeys ks seen
    · have hlook : colLookup (enumKeys seen 0) k = none := by
        rw [colLookup_enumKeys k seen 0, if_neg hmem]
      have hstate : enumKeys seen 0 ++ [(k, (enumKeys seen 0).length)] =
          enumKeys (seen ++ [k]) 0 := by
        rw [enumKeys_append_one k seen 0, enumKeys_length seen 0, Nat.zero_add]
      simp only [getSeq, Colorizer.Get, hlook, firstSeen, if_neg hmem, List.map_cons]
      rw [hstate]
      congr 1
      · rw [rankOf_firstSeen_of_mem ks (seen ++ [k]) k (by simp),
          rankOf_append_self k seen hmem, enumKeys_length seen 0]
      · exact getSeq_enumKeys ks (seen ++ [k])

/-- The records paired with the running `nameWidth` value the loop threads. -/
def nameWidths (w : Nat) : List Log → List (Log × Nat)
  | [] => []
  | l :: rest =>
    (l, if l.Name.length > w then l.Name.length else w) ::
      nameWidths (if l.Name.length > w then l.Name.length else w) rest

theorem httpLoop_color_lines :
    ∀ (stream : List Log) (c : Colorizer) (w : Nat),
      httpLoop false true true ("") c w stream =
        List.zipWith
          (fun code p =>
            code ++ padLeftSpaces p.2 p.1.Name ++ "|" ++ p.1.Data ++ "\x1b[0m\n")
          (getSeq c (stream.map Log.Name)) (nameWidths w stream)
  | [], _, _ => rfl
  | l :: rest, c, w => by
    rw [show httpLoop false true true ("") c w (l :: rest) =
      ((Colorizer.Get c l.Name).2 ++
        padLeftSpaces (if l.Name.length > w then l.Name.length else w) l.Name ++ "|" ++
        l.Data ++ "\x1b[0m\n") ::
        httpLoop false true true ("") (Colorizer.Get c l.Name).1
          (if l.Name.length > w then l.Name.length else w) rest from rfl]
    simp only [List.map_cons, getSeq, nameWidths, List.zipWith_cons_cons]
    congr 1
    exact httpLoop_color_lines rest (Colorizer.Get c l.Name).1 _

theorem colLookup_append_new (c : Colorizer) (key : String) (n : Nat)
    (h : colLookup c key = none) : colLookup (c ++ [(key, n)]) key = some n := by
  induction c with
  | nil => simp [colLookup]
  | cons p rest ih =>
    by_cases hp : p.1 = key
    · rw [colLookup] at h
      simp [hp] at h
    · rw [colLookup] at h
      rw [if_neg hp] at h
      simpa [colLookup, hp] using ih h

/-- C7 counterexample: on a fresh colorizer the second distinct key gets index
1, an odd index, yet its escape code is the bright `"\x1b[1;36m"`, not the dim
`"\x1b[36m"`; and the ninth distinct key gets index 8, an even index, yet its
code is dim.  So even indices are not bright and odd indices are not dim. -/
theorem C7_even_bright_odd_dim_counterexample :
    getSeq [] ["a", "b"] = ["\x1b[1;37m", "\x1b[1;36m"] ∧
    ("\x1b[1;36m" : String) ≠ "\x1b[36m" ∧
    (getSeq [] ["k0", "k1", "k2", "k3", "k4", "k5", "k6", "k7", "k8"]).getLast? =
      some "\x1b[36m" ∧
    ("\x1b[36m" : String) ≠ "\x1b[1;36m" :=
  ⟨rfl, by decide, rfl, by decide⟩

/-- C7 (amended): each HTTP response threads its own colorizer, keyed by
container name, starting empty; the first `Get` of a key assigns the next
index in sequence (the number of keys seen so far) and every later `Get` of
that key returns the same code and leaves the map unchanged; the codes rotate
with period 14; and the indices whose residue mod 14 is at most 6 (the first
seven of each cycle) get a bright code while the other seven get a dim one.
The per-response assignment is `colorCode` of the key's rank in
first-appearance order, and the lines of a multi-source color response are
exactly those codes, threaded from an empty colorizer keyed by each record's
container name. -/
theorem C7_colorizer_behavior (c : Colorizer) (key : String) (i : Nat)
    (keys : List String) (hnew : colLookup c key = none) :
    (colLookup (Colorizer.Get c key).1 key = some c.length ∧
      (Colorizer.Get c key).2 = colorCode c.length) ∧
    Colorizer.Get (Colorizer.Get c key).1 key =
      ((Colorizer.Get c key).1, (Colorizer.Get c key).2) ∧
    colorCode (i + 14) = colorCode i ∧
    (i % 14 ≤ 6 → colorCode i = "\x1b[1;3" ++ toString (7 - i % 7) ++ "m") ∧
    (6 < i % 14 → colorCode i = "\x1b[3" ++ toString (7 - i % 7) ++ "m") ∧
    getSeq [] keys = keys.map (fun k => colorCode (rankOf (firstSeen [] keys) k)) ∧
    (∀ (cp ah : String) (stream : List Log), ¬ cp = "off" → ¬ ah = "application/json" →
      httpStreamer cp ah ("") true stream =
        List.zipWith
          (fun code p =>
            code ++ padLeftSpaces p.2 p.1.Name ++ "|" ++ p.1.Data ++ "\x1b[0m\n")
          (getSeq [] (stream.map Log.Name)) (nameWidths 16 stream)) := by
  refine ⟨⟨?_, ?_⟩, ?_, ?_, ?_, ?_, ?_, ?_⟩
  · simp only [Colorizer.Get, hnew]
    exact colLookup_append_new c key c.length hnew
  · simp [Colorizer.Get, hnew]
  · rcases h : colLookup c key with _ | j
    · have h1 : colLookup (c ++ [(key, c.length)]) key = some c.length :=
        colLookup_append_new c key c.length h
    -- first Get inserted; second Get finds the entry
      simp [Colorizer.Get, h, h1]
    · simp [Colorizer.Get, h]
  · have h14 : (i + 14) % 14 = i % 14 := by omega
    have h7 : (i + 14) % 7 = i % 7 := by omega
    simp [colorCode, h14, h7]
  · intro h
    rw [colorCode, if_neg (by omega)]
    rw [show ("\x1b[" ++ "1;") ++ "3" = "\x1b[1;3" from rfl]
  · intro h
    rw [colorCode, if_pos (by omega)]
    rw [show ("\x1b[" ++ "") ++ "3" = "\x1b[3" from rfl]
  · have := getSeq_enumKeys keys []
    simpa [enumKeys] using this
  · intro cp ah stream hcp hah
    have h1 : (ah == "application/json") = false := beq_eq_false_iff_ne.2 hah
    have h2 : (cp != "off") = true := bne_iff_ne.2 hcp
    rw [httpStreamer, h1, h2]
    exact httpLoop_color_lines stream [] 16

/-- C7 witness: a fresh key on the empty colorizer. -/
theorem C7_colorizer_behavior_witness :
    colLookup [] ("web-1") = none ∧
    (colLookup (Colorizer.Get [] ("web-1")).1 ("web-1") = some (List.length ([] : Colorizer)) ∧
      (Colorizer.Get [] ("web-1")).2 = colorCode (List.length ([] : Colorizer))) :=
  ⟨rfl, (C7_colorizer_behavior [] ("web-1") 0 [] rfl).1⟩

theorem syslogRun_trunc (target : Target) (types : List String) (dialErr : Nat → Bool) :
    ∀ (stream : List Log) (k j : Nat),
      j < (stream.filter fun x => acceptsType types x.Type').length →
      (∀ i, i < j → dialErr (k + i) = false) → dialErr (k + j) = true →
      syslogRun target types dialErr k stream =
        ((((stream.filter fun x => acceptsType types x.Type').take j).map fun x =>
            [SyslogEvent.dial "udp" target.Addr syslogPriority (x.Name ++ target.AppendTag),
             SyslogEvent.write x.Data]).flatten ++
          (((stream.filter fun x => acceptsType types x.Type').drop j).take 1).map
            (fun x =>
              SyslogEvent.dial "udp" target.Addr syslogPriority (x.Name ++ target.AppendTag)),
          true)
  | [], k, j, hj, _, _ => by simp at hj
  | l :: rest, k, j, hj, hprev, hfail => by
    rw [syslogRun_cons]
    by_cases ha : acceptsType types l.Type' = true
    · have hfil : (l :: rest).filter (fun x => acceptsType types x.Type') =
          l :: rest.filter (fun x => acceptsType types x.Type') := by
        rw [List.filter_cons, if_pos ha]
      rw [if_pos ha, hfil]
      match j with
      | 0 =>
        rw [if_pos (by simpa using hfail)]
        simp
      | j' + 1 =>
        have h0 : dialErr k = false := by simpa using hprev 0 (by omega)
        rw [if_neg (by simp [h0])]
        rw [hfil] at hj
        have hj' : j' < (rest.filter fun x => acceptsType types x.Type').length := by
          simpa using hj
        have ih := syslogRun_trunc target types dialErr rest (k + 1) j' hj'
          (fun i hi => by
            have h := hprev (i + 1) (by omega)
            have e : k + (i + 1) = k + 1 + i := by omega
            rwa [e] at h)
          (by
            have e : k + (j' + 1) = k + 1 + j' := by omega
            rwa [e] at hfail)
        rw [ih]
        simp [List.append_assoc]
    · have hfil : (l :: rest).filter (fun x => acceptsType types x.Type') =
          rest.filter (fun x => acceptsType types x.Type') := by
        rw [List.filter_cons, if_neg ha]
      rw [if_neg ha, hfil]
      rw [hfil] at hj
      exact syslogRun_trunc target types dialErr rest k j hj hprev hfail

/-- C4: per accepted record the syslog adapter dials a fresh connection with
priority `LOG_USER|LOG_INFO` (severity INFO) and tag `name + appendTag`, then
writes the payload; for every dial-error oracle the run is fatal exactly when
some accepted record's dial fails; and the first failing dial, at any accepted
position `j` (not only the first record), terminates the whole run right
there: the events are the dial/write pairs of the `j` records handled before
it and then the failing record's dial alone, with no write for that record and
nothing for any later record. -/
theorem C4_syslog_dial_per_record_fatal_errors (target : Target) (types : List String)
    (stream : List Log) :
    (syslogStreamer target types stream (fun _ => false)).1 =
      ((stream.filter fun x => acceptsType types x.Type').map fun x =>
        [SyslogEvent.dial "udp" target.Addr syslogPriority (x.Name ++ target.AppendTag),
         SyslogEvent.write x.Data]).flatten ∧
    (syslogStreamer target types stream (fun _ => false)).2 = false ∧
    syslogPriority % 8 = LOG_INFO ∧
    (∀ dialErr : Nat → Bool,
      (syslogStreamer target types stream dialErr).2 = true ↔
        ∃ j, j < (stream.filter fun x => acceptsType types x.Type').length ∧
          dialErr j = true) ∧
    (∀ (dialErr : Nat → Bool) (j : Nat),
      j < (stream.filter fun x => acceptsType types x.Type').length →
      (∀ i, i < j → dialErr i = false) → dialErr j = true →
      syslogStreamer target types stream dialErr =
        ((((stream.filter fun x => acceptsType types x.Type').take j).map fun x =>
            [SyslogEvent.dial "udp" target.Addr syslogPriority (x.Name ++ target.AppendTag),
             SyslogEvent.write x.Data]).flatten ++
          (((stream.filter fun x => acceptsType types x.Type').drop j).take 1).map
            (fun x =>
              SyslogEvent.dial "udp" target.Addr syslogPriority (x.Name ++ target.AppendTag)),
          true)) := by
  refine ⟨?_, ?_, by decide, ?_, ?_⟩
  · rw [syslogStreamer, syslogRun_ok]
  · rw [syslogStreamer, syslogRun_ok]
  · intro dialErr
    rw [syslogStreamer, syslogRun_fatal_iff]
    simp
  · intro dialErr j hj hprev hfail
    exact syslogRun_trunc target types dialErr stream 0 j hj
      (fun i hi => by simpa using hprev i hi) (by simpa using hfail)

/-- C4 witness: a two-record stream whose second dial fails: the first record
gets its dial and its write, the failing second record only its dial, and the
run is fatal. -/
theorem C4_syslog_dial_per_record_fatal_errors_witness :
    (syslogStreamer ({ Type' := "syslog", Addr := "h:514", AppendTag := ".t" }) []
        [{ Name := "web-1", ID := "c0ffee", Image := "img", Type' := "stdout", Data := "hello" },
         { Name := "web-2", ID := "c0ffef", Image := "img", Type' := "stderr", Data := "bye" }]
        (fun k => k == 1)) =
      ([SyslogEvent.dial "udp" ("h:514") syslogPriority ("web-1.t"),
        SyslogEvent.write ("hello"),
        SyslogEvent.dial "udp" ("h:514") syslogPriority ("web-2.t")], true) :=
  (C4_syslog_dial_per_record_fatal_errors
    ({ Type' := "syslog", Addr := "h:514", AppendTag := ".t" }) []
    [{ Name := "web-1", ID := "c0ffee", Image := "img", Type' := "stdout", Data := "hello" },
     { Name := "web-2", ID := "c0ffef", Image := "img", Type' := "stderr", Data := "bye" }]).2.2.2.2
    (fun k => k == 1) 1 (by decide) (by decide) (by decide)

/-! ## Document-map lemmas -/

theorem docLookup_insert_self (m : Doc) (k : String) (v : DocVal) :
    docLookup (docInsert m k v) k = some v := by
  induction m with
  | nil => simp [docInsert, docLookup]
  | cons p rest ih =>
    by_cases hp : p.1 = k
    · simp [docInsert, docLookup, hp]
    · simp [docInsert, docLookup, hp, ih]

theorem docLookup_insert_ne (m : Doc) (k k' : String) (v : DocVal) (h : k' ≠ k) :
    docLookup (docInsert m k v) k' = docLookup m k' := by
  induction m with
  | nil =>
    simp only [docInsert, docLookup]
    rw [if_neg (fun hk => h hk.symm)]
  | cons p rest ih =>
    by_cases hp : p.1 = k
    · subst hp
      simp only [docInsert, if_pos rfl, docLookup]
      rw [if_neg (fun hk => h hk.symm), if_neg (fun hk => h hk.symm)]
    · simp only [docInsert, if_neg hp, docLookup]
      by_cases hk' : p.1 = k'
      · rw [if_pos hk', if_pos hk']
      · rw [if_neg hk', if_neg hk']
        exact ih

theorem docKeys_cons (p : String × DocVal) (rest : Doc) :
    docKeys (p :: rest) = p.1 :: docKeys rest := rfl

theorem docKeys_insert (m : Doc) (key : String) (v : DocVal) :
    docKeys (docInsert m key v) =
      if key ∈ docKeys m then docKeys m else docKeys m ++ [key] := by
  induction m with
  | nil => simp [docInsert, docKeys]
  | cons p rest ih =>
    by_cases hp : p.1 = key
    · subst hp
      simp [docInsert, docKeys_cons, List.mem_cons]
    · have hpk : ¬ key = p.1 := fun hk => hp hk.symm
      simp only [docInsert, if_neg hp]
      rw [docKeys_cons, docKeys_cons, ih]
      by_cases hmem : key ∈ docKeys rest
      · rw [if_pos hmem, if_pos (List.mem_cons.2 (Or.inr hmem))]
      · rw [if_neg hmem, if_neg (by simp [List.mem_cons, hpk, hmem]), List.cons_append]

theorem docKeys_insert_mem (m : Doc) (key k : String) (v : DocVal)
    (h : k ∈ docKeys m) : k ∈ docKeys (docInsert m key v) := by
  rw [docKeys_insert]
  by_cases hmem : key ∈ docKeys m
  · rwa [if_pos hmem]
  · rw [if_neg hmem]
    exact List.mem_append_left _ h

theorem mergeJsonFields_keys_mem (k : String) :
    ∀ (flds : List (String × JValue)) (base : Doc),
      k ∈ docKeys base → k ∈ docKeys (mergeJsonFields base flds)
  | [], _, h => h
  | f :: rest, base, h =>
    mergeJsonFields_keys_mem k rest (docInsert base f.1 (DocVal.jv f.2))
      (docKeys_insert_mem base f.1 k (DocVal.jv f.2) h)

theorem esFinishDoc_keys_mem (l : Log) (k8s : K8sContainer) (m : Doc) (k : String)
    (h : k ∈ docKeys m) : k ∈ docKeys (esFinishDoc l k8s m) := by
  rw [esFinishDoc]
  by_cases hp : k8s.Pod.length > 0
  · simp only [if_pos hp]
    exact docKeys_insert_mem _ _ _ _ (docKeys_insert_mem _ _ _ _ (docKeys_insert_mem _ _ _ _
      (docKeys_insert_mem _ _ _ _ (docKeys_insert_mem _ _ _ _ h))))
  · simp only [if_neg hp]
    exact docKeys_insert_mem _ _ _ _ (docKeys_insert_mem _ _ _ _ h)

theorem esFinishDoc_k8s_lookups (l : Log) (k8s : K8sContainer) (m : Doc)
    (hp : k8s.Pod.length > 0) :
    docLookup (esFinishDoc l k8s m) ("k8s_container") = some (DocVal.str k8s.Name) ∧
    docLookup (esFinishDoc l k8s m) ("k8s_pod") = some (DocVal.str k8s.Pod) ∧
    docLookup (esFinishDoc l k8s m) ("k8s_namespace") = some (DocVal.str k8s.Namespace) := by
  rw [esFinishDoc]
  simp only [if_pos hp]
  refine ⟨?_, ?_, ?_⟩
  · rw [docLookup_insert_ne _ _ _ _ (by decide), docLookup_insert_self]
  · rw [docLookup_insert_ne _ _ _ _ (by decide), docLookup_insert_ne _ _ _ _ (by decide),
      docLookup_insert_self]
  · rw [docLookup_insert_self]

theorem esFinishDoc_lookup_other (l : Log) (k8s : K8sContainer) (m : Doc) (k : String)
    (h1 : k ≠ "container") (h2 : k ≠ "image") (h3 : k ≠ "k8s_pod")
    (h4 : k ≠ "k8s_container") (h5 : k ≠ "k8s_namespace") :
    docLookup (esFinishDoc l k8s m) k = docLookup m k := by
  rw [esFinishDoc]
  by_cases hp : k8s.Pod.length > 0
  · simp only [if_pos hp]
    rw [docLookup_insert_ne _ _ _ _ h5, docLookup_insert_ne _ _ _ _ h4,
      docLookup_insert_ne _ _ _ _ h3, docLookup_insert_ne _ _ _ _ h2,
      docLookup_insert_ne _ _ _ _ h1]
  · simp only [if_neg hp]
    rw [docLookup_insert_ne _ _ _ _ h2, docLookup_insert_ne _ _ _ _ h1]

/-- The two live outcomes of one loop iteration: the wrap document on an
unmarshal error, or the merged map with `@timestamp` injected when absent.
The index name is always the date-stamped one. -/
theorem esStep_some_shape (m : Option Doc) (l : Log) (now : GoTime) (idx : String) (doc : Doc)
    (h : esStep m l now = some (idx, doc)) :
    idx = indexNameAt now ∧
    ((goUnmarshalMap m l.Data = none ∧
        doc = esFinishDoc l (k8sEnrich l.Name)
          [("@timestamp", DocVal.time now), ("message", DocVal.str l.Data)]) ∨
      (∃ mm, goUnmarshalMap m l.Data = some (some mm) ∧
        doc = esFinishDoc l (k8sEnrich l.Name)
          (if (docLookup mm "@timestamp").isNone
           then docInsert mm "@timestamp" (DocVal.time now) else mm))) := by
  rw [esStep] at h
  rcases hu : goUnmarshalMap m l.Data with _ | mm'
  · rw [hu] at h
    simp only [Option.some_inj, Prod.mk.injEq] at h
    exact ⟨h.1.symm, Or.inl ⟨rfl, h.2.symm⟩⟩
  · rcases mm' with _ | mm
    · rw [hu] at h
      simp at h
    · rw [hu] at h
      simp only [Option.some_inj, Prod.mk.injEq] at h
      exact ⟨h.1.symm, Or.inr ⟨mm, rfl, h.2.symm⟩⟩

/-- Build a record from its five fields. -/
def mkLog (name cid img ty payload : String) : Log :=
  { Name := name, ID := cid, Image := img, Type' := ty, Data := payload }

theorem docLookup_cons_self (k : String) (v : DocVal) (rest : Doc) :
    docLookup ((k, v) :: rest) k = some v := by
  simp [docLookup]

theorem docLookup_cons_ne (k key : String) (v : DocVal) (rest : Doc) (h : ¬ k = key) :
    docLookup ((k, v) :: rest) key = docLookup rest key := by
  simp [docLookup, h]

/-! ## Concrete records and times used by the example theorems -/

/-- Midnight 1970-01-01 UTC, zero zone offset. -/
def exTime : GoTime := { sec := 0, offset := 0 }

/-- One minute later. -/
def exTime2 : GoTime := { sec := 60, offset := 0 }

/-- A record whose payload parses as a JSON object. -/
def exLogJson : Log :=
  { Name := "web-1", ID := "cid0", Image := "img", Type' := "stdout",
    Data := "\x7b\"msg\":\"hi\"\x7d" }

/-- A record whose payload is not JSON. -/
def exLogNotJson : Log :=
  { Name := "web-1", ID := "cid0", Image := "img", Type' := "stdout", Data := "not json" }

/-- A record named with underscores between pod and namespace, as the claim
writes the k8s naming convention. -/
def exLogUnderscores : Log :=
  { Name := "k8s_myapp.0_mypod_myns_...", ID := "cid0", Image := "img", Type' := "stdout",
    Data := "not json" }

/-- A record whose JSON payload defines the key `previous`. -/
def exLogLeak : Log :=
  { Name := "web-1", ID := "cid0", Image := "img", Type' := "stdout",
    Data := "\x7b\"previous\":\"leak\"\x7d" }

/-- A record named in the dotted form the pattern actually matches. -/
def exLogDotted : Log :=
  { Name := "k8s_myapp.0_mypod.myns", ID := "c", Image := "i", Type' := "stdout",
    Data := "not json" }

/-- The document `exLogDotted` produces from a nil map at `exTime`. -/
def exDocK8s : Doc :=
  [("@timestamp", DocVal.time exTime), ("message", DocVal.str "not json"),
   ("container", DocVal.str "k8s_myapp.0_mypod.myns"), ("image", DocVal.str "i"),
   ("k8s_pod", DocVal.str "mypod"), ("k8s_container", DocVal.str "myapp"),
   ("k8s_namespace", DocVal.str "myns")]

/-- C1 counterexample: an accepted record named `k8s_myapp.0_mypod_myns_...`
is indexed, but the indexed document carries none of the three k8s fields:
the compiled pattern requires a literal dot between pod and namespace, so this
name does not match and no enrichment happens. -/
theorem C1_k8s_name_counterexample :
    (elasticsearchStreamer [] [(exLogUnderscores, exTime)]).map
        (fun p => (docLookup p.2 ("k8s_container"), docLookup p.2 ("k8s_pod"),
          docLookup p.2 ("k8s_namespace"))) = [(none, none, none)] := rfl

/-- C1 (amended): the recognizable three-part pattern requires pod and
namespace separated by a dot: a record named `k8s_myapp.0_mypod.myns` is
enriched with `k8s_container=myapp`, `k8s_pod=mypod`, `k8s_namespace=myns`,
while `k8s_myapp.0_mypod_myns_...` (underscore between pod and namespace) and
`web-1` do not match, and for any non-matching name the record's processing
adds no k8s field: absent in the wrap document, and exactly the reused map's
own entries after a successful parse. -/
theorem C1_k8s_enrichment (m : Option Doc) (now : GoTime)
    (cid img ty payload idx : String) (doc : Doc)
    (ha : esStep m (mkLog ("k8s_myapp.0_mypod.myns") cid img ty payload) now =
      some (idx, doc)) :
    (docLookup doc ("k8s_container") = some (DocVal.str ("myapp")) ∧
      docLookup doc ("k8s_pod") = some (DocVal.str ("mypod")) ∧
      docLookup doc ("k8s_namespace") = some (DocVal.str ("myns"))) ∧
    k8sEnrich ("k8s_myapp.0_mypod_myns_...") = ({} : K8sContainer) ∧
    k8sEnrich ("web-1") = ({} : K8sContainer) ∧
    (∀ (name : String) (m' : Option Doc) (idx' : String) (doc' : Doc),
      k8sEnrich name = ({} : K8sContainer) →
      esStep m' (mkLog name cid img ty payload) now = some (idx', doc') →
      ∀ k, (k = "k8s_container" ∨ k = "k8s_pod" ∨ k = "k8s_namespace") →
        ((goUnmarshalMap m' payload = none → docLookup doc' k = none) ∧
         (∀ mm, goUnmarshalMap m' payload = some (some mm) →
            docLookup doc' k = docLookup mm k))) := by
  have hmatch : k8sEnrich ("k8s_myapp.0_mypod.myns") =
      ({ Name := "myapp", Pod := "mypod", Namespace := "myns" } : K8sContainer) := rfl
  refine ⟨?_, rfl, rfl, ?_⟩
  · obtain ⟨-, hcases⟩ := esStep_some_shape m _ now idx doc ha
    rw [show (mkLog ("k8s_myapp.0_mypod.myns") cid img ty payload).Name =
      "k8s_myapp.0_mypod.myns" from rfl, hmatch] at hcases
    have hp : (({ Name := "myapp", Pod := "mypod", Namespace := "myns" } :
        K8sContainer)).Pod.length > 0 := by decide
    rcases hcases with ⟨-, hdoc⟩ | ⟨mm, -, hdoc⟩ <;>
      · rw [hdoc]
        exact esFinishDoc_k8s_lookups _ _ _ hp
  · intro name m' idx' doc' hname hstep' k hk
    obtain ⟨-, hcases⟩ := esStep_some_shape m' _ now idx' doc' hstep'
    rw [show (mkLog name cid img ty payload).Name = name from rfl,
      show (mkLog name cid img ty payload).Data = payload from rfl, hname] at hcases
    have hk1 : k ≠ "container" := by rcases hk with h | h | h <;> subst h <;> decide
    have hk2 : k ≠ "image" := by rcases hk with h | h | h <;> subst h <;> decide
    have hother : ∀ m0 : Doc,
        docLookup (esFinishDoc (mkLog name cid img ty payload)
          ({ Name := "", Pod := "", Namespace := "" } : K8sContainer) m0) k =
          docLookup m0 k := by
      intro m0
      simp only [esFinishDoc]
      rw [if_neg (by decide)]
      rw [docLookup_insert_ne _ _ _ _ hk2, docLookup_insert_ne _ _ _ _ hk1]
    have hkts : ¬ k = "@timestamp" := by
      rcases hk with h | h | h <;> subst h <;> decide
    constructor
    · intro hu
      rcases hcases with ⟨-, hdoc⟩ | ⟨mm, hu', -⟩
      · rw [hdoc, hother]
        rcases hk with h | h | h <;> subst h <;>
          rw [docLookup_cons_ne _ _ _ _ (by decide), docLookup_cons_ne _ _ _ _ (by decide)] <;>
          rfl
      · rw [hu] at hu'
        exact absurd hu' (by simp)
    · intro mm hu
      rcases hcases with ⟨hu', -⟩ | ⟨mm0, hu', hdoc⟩
      · rw [hu] at hu'
        exact absurd hu' (by simp)
      · rw [hu] at hu'
        have hmm : mm0 = mm := by
          simpa using hu'.symm
        rw [hmm] at hdoc
        rw [hdoc, hother]
        by_cases hts : (docLookup mm ("@timestamp")).isNone
        · rw [if_pos hts, docLookup_insert_ne _ _ _ _ hkts]
        · rw [if_neg hts]

/-- C1 witness: the dotted name from a nil map. -/
theorem C1_k8s_enrichment_witness :
    esStep none exLogDotted exTime = some ("logstash-1970.01.01", exDocK8s) ∧
    docLookup exDocK8s ("k8s_container") = some (DocVal.str ("myapp")) :=
  ⟨rfl, (C1_k8s_enrichment none exTime ("c") ("i") ("stdout") ("not json")
      ("logstash-1970.01.01") exDocK8s rfl).1.1⟩

/-- C2: per accepted record, an unmarshal failure wraps the whole payload
under `message` next to a generated `@timestamp`; a payload decoding as a JSON
object is indexed with its own entries (those not overwritten by the
container/image/k8s fields) and with `@timestamp` injected when absent.  The
two concrete single-record runs are the spec's examples. -/
theorem C2_payload_parsing (m : Option Doc) (l : Log) (now : GoTime) :
    (goUnmarshalMap m l.Data = none →
      (esStep m l now).map
          (fun p => (docLookup p.2 ("message"), docLookup p.2 ("@timestamp"))) =
        some (some (DocVal.str l.Data), some (DocVal.time now))) ∧
    (∀ mm, goUnmarshalMap m l.Data = some (some mm) →
      ((docLookup mm ("@timestamp") = none →
        (esStep m l now).map (fun p => docLookup p.2 ("@timestamp")) =
          some (some (DocVal.time now))) ∧
       (∀ k v, docLookup mm k = some v →
         k ≠ "container" → k ≠ "image" → k ≠ "k8s_pod" → k ≠ "k8s_container" →
         k ≠ "k8s_namespace" →
         (esStep m l now).map (fun p => docLookup p.2 k) = some (some v)))) ∧
    elasticsearchStreamer [] [(exLogJson, exTime)] =
      [("logstash-1970.01.01",
        [("msg", DocVal.jv (JValue.str "hi")), ("@timestamp", DocVal.time exTime),
         ("container", DocVal.str "web-1"), ("image", DocVal.str "img")])] ∧
    elasticsearchStreamer [] [(exLogNotJson, exTime)] =
      [("logstash-1970.01.01",
        [("@timestamp", DocVal.time exTime), ("message", DocVal.str "not json"),
         ("container", DocVal.str "web-1"), ("image", DocVal.str "img")])] := by
  refine ⟨?_, ?_, rfl, rfl⟩
  · intro hu
    simp only [esStep, hu, Option.map_some']
    rw [esFinishDoc_lookup_other _ _ _ _ (by decide) (by decide) (by decide) (by decide)
        (by decide),
      esFinishDoc_lookup_other _ _ _ _ (by decide) (by decide) (by decide) (by decide)
        (by decide)]
    rw [docLookup_cons_ne _ _ _ _ (by decide), docLookup_cons_self,
      docLookup_cons_self]
  · intro mm hu
    constructor
    · intro hts
      simp only [esStep, hu, Option.map_some']
      rw [if_pos (by rw [hts]; rfl)]
      rw [esFinishDoc_lookup_other _ _ _ _ (by decide) (by decide) (by decide) (by decide)
          (by decide),
        docLookup_insert_self]
    · intro k v hkv h1 h2 h3 h4 h5
      simp only [esStep, hu, Option.map_some']
      rw [esFinishDoc_lookup_other _ _ _ _ h1 h2 h3 h4 h5]
      by_cases hts : (docLookup mm ("@timestamp")).isNone
      · rw [if_pos hts]
        have hkts : k ≠ "@timestamp" := by
          intro hk
          rw [hk] at hkv
          rw [hkv] at hts
          simp at hts
        rw [docLookup_insert_ne _ _ _ _ hkts, hkv]
      · rw [if_neg hts, hkv]

/-- C2 witness: the non-JSON payload `not json` from a nil map. -/
theorem C2_payload_parsing_witness :
    goUnmarshalMap none exLogNotJson.Data = none ∧
    (esStep none exLogNotJson exTime).map
        (fun p => (docLookup p.2 ("message"), docLookup p.2 ("@timestamp"))) =
      some (some (DocVal.str exLogNotJson.Data), some (DocVal.time exTime)) :=
  ⟨rfl, (C2_payload_parsing none exLogNotJson exTime).1 rfl⟩

/-- The map state some earlier iteration left behind. -/
def exPrevDoc : Doc := [("a", DocVal.str "x")]

/-- `exPrevDoc` after `json.Unmarshal` of `exLogJson`'s payload reuses it. -/
def exMergedDoc : Doc := [("a", DocVal.str "x"), ("msg", DocVal.jv (JValue.str "hi"))]

/-- The document `exLogJson` produces from the state `exPrevDoc`. -/
def exNewDoc : Doc :=
  [("a", DocVal.str "x"), ("msg", DocVal.jv (JValue.str "hi")),
   ("@timestamp", DocVal.time exTime), ("container", DocVal.str "web-1"),
   ("image", DocVal.str "img")]

/-- C10: `tmpMap` is declared once outside the record loop and
`json.Unmarshal` reuses the non-nil map keeping existing entries, so whenever
a payload parses as a JSON object, every key of the previous iteration's
document persists into the new document.  The concrete runs index the same
record with and without a predecessor and get different documents: the
predecessor's `previous` key leaks into the later document, so the document is
not a function of the current record alone. -/
theorem C10_tmpMap_reuse (m : Doc) (l : Log) (now : GoTime) (mm : Doc)
    (idx : String) (doc : Doc)
    (hparse : goUnmarshalMap (some m) l.Data = some (some mm))
    (hstep : esStep (some m) l now = some (idx, doc)) :
    (∀ k, k ∈ docKeys m → k ∈ docKeys doc) ∧
    ((elasticsearchStreamer [] [(exLogLeak, exTime), (exLogJson, exTime2)]).map
        (fun p => docLookup p.2 ("previous"))) =
      [some (DocVal.jv (JValue.str ("leak"))), some (DocVal.jv (JValue.str ("leak")))] ∧
    ((elasticsearchStreamer [] [(exLogJson, exTime2)]).map
        (fun p => docLookup p.2 ("previous"))) = [none] := by
  refine ⟨?_, rfl, rfl⟩
  intro k hk
  obtain ⟨flds, hflds⟩ : ∃ flds, mm = mergeJsonFields m flds := by
    rw [goUnmarshalMap] at hparse
    rcases hp : jsonParse l.Data with _ | v
    · rw [hp] at hparse
      simp at hparse
    · rcases v with _ | b | lit | s | elems | fields
      · rw [hp] at hparse
        simp at hparse
      · rw [hp] at hparse
        simp at hparse
      · rw [hp] at hparse
        simp at hparse
      · rw [hp] at hparse
        simp at hparse
      · rw [hp] at hparse
        simp at hparse
      · rw [hp] at hparse
        refine ⟨fields, ?_⟩
        simpa using hparse.symm
  obtain ⟨-, hcases⟩ := esStep_some_shape (some m) l now idx doc hstep
  rcases hcases with ⟨hu, -⟩ | ⟨mm0, hu, hdoc⟩
  · rw [hparse] at hu
    exact absurd hu (by simp)
  · rw [hparse] at hu
    have hmm : mm0 = mm := by simpa using hu.symm
    rw [hmm] at hdoc
    rw [hdoc]
    apply esFinishDoc_keys_mem
    have hmem : k ∈ docKeys mm := by
      rw [hflds]
      exact mergeJsonFields_keys_mem k flds m hk
    by_cases hts : (docLookup mm ("@timestamp")).isNone
    · rw [if_pos hts]
      exact docKeys_insert_mem _ _ _ _ hmem
    · rwa [if_neg hts]

/-- C10 witness: a one-key predecessor map reused by the next record. -/
theorem C10_tmpMap_reuse_witness :
    goUnmarshalMap (some exPrevDoc) exLogJson.Data = some (some exMergedDoc) ∧
    (∀ k, k ∈ docKeys exPrevDoc → k ∈ docKeys exNewDoc) :=
  ⟨rfl, (C10_tmpMap_reuse exPrevDoc exLogJson exTime exMergedDoc
      ("logstash-1970.01.01") exNewDoc rfl rfl).1⟩

/-! ## The per-record type filter (C3) -/

theorem toList_append (a b : String) : (a ++ b).toList = a.toList ++ b.toList :=
  String.data_append a b

theorem goContains_iff (s sub : String) :
    goContains s sub = true ↔ sub.toList <:+: s.toList := by
  rw [goContains, List.any_eq_true, List.infix_iff_prefix_suffix]
  constructor
  · rintro ⟨t, ht, hp⟩
    exact ⟨t, List.isPrefixOf_iff_prefix.1 hp, (List.mem_tails t s.toList).1 ht⟩
  · rintro ⟨t, hp, hs⟩
    exact ⟨t, (List.mem_tails t s.toList).2 hs, List.isPrefixOf_iff_prefix.2 hp⟩

theorem typestr_toList_cons2 (x y : String) (xs : List String) :
    (typestrOf (x :: y :: xs)).toList =
      ',' :: (x.toList ++ (typestrOf (y :: xs)).toList) := by
  simp only [typestrOf, goJoin, toList_append,
    show (",").toList = [','] from rfl]
  simp [List.append_assoc]

theorem infix_comma_block (t x : String) (R : List Char)
    (ht : t = "stdout" ∨ t = "stderr") (hx : x = "stdout" ∨ x = "stderr") :
    (t.toList <:+: ',' :: (x.toList ++ R)) ↔ (t = x ∨ t.toList <:+: R) := by
  rcases ht with h | h <;> rcases hx with h' | h' <;> subst h <;> subst h' <;>
    simp [List.infix_cons_iff, List.cons_prefix_cons,
      show ("stdout").toList = ['s', 't', 'd', 'o', 'u', 't'] from rfl,
      show ("stderr").toList = ['s', 't', 'd', 'e', 'r', 'r'] from rfl]

theorem goContains_typestr_iff (t : String) (ht : t = "stdout" ∨ t = "stderr") :
    ∀ (types : List String), (∀ x ∈ types, x = "stdout" ∨ x = "stderr") →
      (goContains (typestrOf types) t = true ↔ t ∈ types)
  | [], _ => by
    rcases ht with h | h <;> subst h <;> decide
  | [x], hx => by
    have hx' := hx x (by simp)
    rcases ht with h | h <;> rcases hx' with h' | h' <;> subst h <;> subst h' <;> decide
  | x :: y :: xs, hx => by
    have hx1 := hx x (by simp)
    have hrest : ∀ z ∈ y :: xs, z = "stdout" ∨ z = "stderr" := fun z hz =>
      hx z (by simp [hz])
    rw [goContains_iff, typestr_toList_cons2, infix_comma_block t x _ ht hx1,
      ← goContains_iff (typestrOf (y :: xs)) t,
      goContains_typestr_iff t ht (y :: xs) hrest]
    simp [List.mem_cons]

theorem typestr_ne_empty (x : String) (xs : List String)
    (hx : x = "stdout" ∨ x = "stderr") :
    (typestrOf (x :: xs) == ",,") = false := by
  rw [beq_eq_false_iff_ne]
  intro h
  have hlen := congrArg (fun s => s.toList.length) h
  simp only at hlen
  cases xs with
  | nil =>
    rcases hx with h' | h' <;> subst h' <;> exact absurd hlen (by decide)
  | cons y ys =>
    rw [typestr_toList_cons2] at hlen
    rcases hx with h' | h' <;> subst h' <;>
      simp [show ("stdout").toList = ['s', 't', 'd', 'o', 'u', 't'] from rfl,
        show ("stderr").toList = ['s', 't', 'd', 'e', 'r', 'r'] from rfl,
        show (",,").toList = [',', ','] from rfl] at hlen

/-- C3: with an empty accepted-type list every record is forwarded whatever
its type; with a non-empty list over the stream types `stdout`/`stderr` the
per-record re-check forwards a record exactly when its type is in the list.
The last two conjuncts anchor the check in the two cited adapters: a
one-record stream produces no syslog events and no UDP datagram exactly when
the record fails the check. -/
theorem C3_stream_type_filter (types : List String) (l : Log) (target : Target)
    (dialErr : Nat → Bool)
    (ht : l.Type' = "stdout" ∨ l.Type' = "stderr")
    (htypes : ∀ x ∈ types, x = "stdout" ∨ x = "stderr") :
    (types = [] → acceptsType types l.Type' = true) ∧
    (acceptsType types l.Type' = true ↔ (types = [] ∨ l.Type' ∈ types)) ∧
    ((syslogStreamer target types [l] dialErr).1 = [] ↔
      acceptsType types l.Type' = false) ∧
    (udpLoop types [l] = [] ↔ acceptsType types l.Type' = false) := by
  refine ⟨?_, ?_, ?_, ?_⟩
  · intro h
    subst h
    simp [acceptsType, show (typestrOf [] == ",,") = true from by decide]
  · cases types with
    | nil => simp [acceptsType, show (typestrOf [] == ",,") = true from by decide]
    | cons x xs =>
      have hx := htypes x (by simp)
      rw [acceptsType, typestr_ne_empty x xs hx, Bool.false_or,
        goContains_typestr_iff l.Type' ht (x :: xs) htypes]
      simp
  · cases hacc : acceptsType types l.Type' with
    | false => simp [syslogStreamer, syslogRun_cons, hacc, syslogRun]
    | true =>
      by_cases hd : dialErr 0 = true <;>
        simp [syslogStreamer, syslogRun_cons, hacc, hd, syslogRun]
  · cases hacc : acceptsType types l.Type' with
    | false => simp [udpLoop, hacc]
    | true => simp [udpLoop, hacc]

/-- C3 witness: a one-element type list and a matching record. -/
theorem C3_stream_type_filter_witness :
    (exLogJson.Type' = "stdout" ∨ exLogJson.Type' = "stderr") ∧
    (acceptsType ["stdout"] exLogJson.Type' = true ↔
      ((["stdout"] : List String) = [] ∨ exLogJson.Type' ∈ ["stdout"])) :=
  ⟨Or.inl rfl,
    (C3_stream_type_filter ["stdout"] exLogJson
      ({ Type' := "udp", Addr := "h:514", AppendTag := "" }) (fun _ => false)
      (Or.inl rfl) (by intro x hx; simp at hx; exact Or.inl hx)).2.1⟩

/-! ## Decimal rendering facts (for the date-stamp injectivity) -/

/-- Value of a decimal digit character. -/
def charDigitVal (c : Char) : Nat :=
  c.toNat - 48

/-- Read a digit string back as a number, most significant digit first. -/
def unDec (acc : Nat) (l : List Char) : Nat :=
  l.foldl (fun a c => 10 * a + charDigitVal c) acc

theorem charDigitVal_decChar : ∀ d < 10, charDigitVal (decChar d) = d := by decide

theorem unDec_decChars :
    ∀ (f n acc : Nat), n < 10 ^ f →
      unDec acc (decChars f n) = acc * 10 ^ (decChars f n).length + n
  | 0, n, acc, h => by
    have hn : n = 0 := by omega
    subst hn
    simp [decChars, unDec]
  | f + 1, n, acc, h => by
    by_cases hn : n < 10
    · simp only [decChars, if_pos hn, unDec, List.foldl_cons, List.foldl_nil,
        List.length_cons, List.length_nil]
      rw [charDigitVal_decChar n hn]
      ring
    · simp only [decChars, if_neg hn]
      rw [unDec, List.foldl_append]
      have hdiv : n / 10 < 10 ^ f := by
        rw [Nat.div_lt_iff_lt_mul (by omega)]
        calc n < 10 ^ (f + 1) := h
        _ = 10 ^ f * 10 := by rw [Nat.pow_succ]
      have ih := unDec_decChars f (n / 10) acc hdiv
      rw [unDec] at ih
      simp only [List.foldl_cons, List.foldl_nil, ih, List.length_append,
        List.length_cons, List.length_nil]
      rw [charDigitVal_decChar (n % 10) (by omega)]
      have : 10 * (acc * 10 ^ (decChars f (n / 10)).length + n / 10) + n % 10 =
          acc * (10 ^ (decChars f (n / 10)).length * 10) + (10 * (n / 10) + n % 10) := by
        ring
      rw [this, Nat.div_add_mod, ← Nat.pow_succ]

theorem decChars_length_le :
    ∀ (f n : Nat), 0 < f → n < 10 ^ f → (decChars f n).length ≤ f
  | 0, _, hf, _ => by omega
  | f + 1, n, _, h => by
    by_cases hn : n < 10
    · simp [decChars, if_pos hn]
    · simp only [decChars, if_neg hn, List.length_append, List.length_cons,
        List.length_nil]
      have hdiv : n / 10 < 10 ^ f := by
        rw [Nat.div_lt_iff_lt_mul (by omega)]
        calc n < 10 ^ (f + 1) := h
        _ = 10 ^ f * 10 := by rw [Nat.pow_succ]
      have hf : 0 < f := by
        rcases Nat.eq_zero_or_pos f with h0 | h0
        · subst h0
          simp at hdiv
          omega
        · exact h0
      have := decChars_length_le f (n / 10) hf hdiv
      omega

theorem decChars_fuel_irrelevant :
    ∀ (f g n : Nat), 0 < f → 0 < g → n < 10 ^ f → n < 10 ^ g →
      decChars f n = decChars g n
  | 0, _, _, hf, _, _, _ => by omega
  | _ + 1, 0, _, _, hg, _, _ => by omega
  | f + 1, g + 1, n, _, _, hnf, hng => by
    by_cases hn : n < 10
    · simp [decChars, if_pos hn]
    · simp only [decChars, if_neg hn]
      have hdivf : n / 10 < 10 ^ f := by
        rw [Nat.div_lt_iff_lt_mul (by omega)]
        calc n < 10 ^ (f + 1) := hnf
        _ = 10 ^ f * 10 := by rw [Nat.pow_succ]
      have hdivg : n / 10 < 10 ^ g := by
        rw [Nat.div_lt_iff_lt_mul (by omega)]
        calc n < 10 ^ (g + 1) := hng
        _ = 10 ^ g * 10 := by rw [Nat.pow_succ]
      have hf : 0 < f := by
        rcases Nat.eq_zero_or_pos f with h0 | h0
        · subst h0
          simp at hdivf
          omega
        · exact h0
      have hg : 0 < g := by
        rcases Nat.eq_zero_or_pos g with h0 | h0
        · subst h0
          simp at hdivg
          omega
        · exact h0
      rw [decChars_fuel_irrelevant f g (n / 10) hf hg hdivf hdivg]

theorem lt_ten_pow_succ_self (n : Nat) : n < 10 ^ (n + 1) := by
  calc n < 10 ^ n := Nat.lt_pow_self (by omega) n
  _ ≤ 10 ^ (n + 1) := Nat.pow_le_pow_right (by omega) (by omega)

theorem decStr_length_le (w n : Nat) (hw : 0 < w) (h : n < 10 ^ w) :
    (decStr n).length ≤ w := by
  rw [decStr, decChars_fuel_irrelevant (n + 1) w n (by omega) hw
    (lt_ten_pow_succ_self n) h]
  exact decChars_length_le w n hw h

theorem unDec_replicate_zero : ∀ k : Nat, unDec 0 (List.replicate k '0') = 0
  | 0 => rfl
  | k + 1 => by
    rw [List.replicate_succ, unDec, List.foldl_cons]
    have : 10 * 0 + charDigitVal '0' = 0 := by decide
    rw [this]
    exact unDec_replicate_zero k

theorem unDec_padZeros_decStr (w n : Nat) : unDec 0 (padZeros w (decStr n)) = n := by
  rw [padZeros, unDec, List.foldl_append]
  have h1 : List.foldl (fun a c => 10 * a + charDigitVal c) 0
      (List.replicate (w - (decStr n).length) '0') = 0 :=
    unDec_replicate_zero (w - (decStr n).length)
  rw [h1]
  have h2 := unDec_decChars (n + 1) n 0 (lt_ten_pow_succ_self n)
  rw [unDec] at h2
  rw [show decStr n = decChars (n + 1) n from rfl, h2, Nat.zero_mul, Nat.zero_add]

theorem padZeros_length (w : Nat) (ds : List Char) (h : ds.length ≤ w) :
    (padZeros w ds).length = w := by
  rw [padZeros, List.length_append, List.length_replicate]
  omega

theorem padZeros_decStr_inj (w n n' : Nat)
    (h : padZeros w (decStr n) = padZeros w (decStr n')) :
    n = n' := by
  have := congrArg (unDec 0) h
  rwa [unDec_padZeros_decStr, unDec_padZeros_decStr] at this

theorem formatDateStamp_inj (y1 y2 : Int) (m1 d1 m2 d2 : Nat)
    (hy1 : 0 ≤ y1) (hy1' : y1 < 10000) (hm1 : m1 < 100) (hd1 : d1 < 100)
    (hy2 : 0 ≤ y2) (hy2' : y2 < 10000) (hm2 : m2 < 100) (hd2 : d2 < 100)
    (h : formatDateStamp (y1, m1, d1) = formatDateStamp (y2, m2, d2)) :
    y1 = y2 ∧ m1 = m2 ∧ d1 = d2 := by
  have hy1n : y1.toNat < 10000 := by omega
  have hy2n : y2.toNat < 10000 := by omega
  have hlist := congrArg String.data h
  simp only [formatDateStamp, String.mk] at hlist
  rw [yearChars, if_neg (by omega), yearChars, if_neg (by omega)] at hlist
  have hlen1 : (padZeros 4 (decStr y1.toNat)).length = 4 :=
    padZeros_length 4 _ (decStr_length_le 4 y1.toNat (by omega) (by omega))
  have hlen2 : (padZeros 4 (decStr y2.toNat)).length = 4 :=
    padZeros_length 4 _ (decStr_length_le 4 y2.toNat (by omega) (by omega))
  have hlenm1 : (padZeros 2 (decStr m1)).length = 2 :=
    padZeros_length 2 _ (decStr_length_le 2 m1 (by omega) (by omega))
  have hlenm2 : (padZeros 2 (decStr m2)).length = 2 :=
    padZeros_length 2 _ (decStr_length_le 2 m2 (by omega) (by omega))
  obtain ⟨hleft, hright⟩ := List.append_inj hlist (by
    rw [List.length_append, List.length_append, hlen1, hlen2, List.length_cons,
      List.length_cons, hlenm1, hlenm2])
  obtain ⟨hyear, hmonc⟩ := List.append_inj hleft (by rw [hlen1, hlen2])
  have hy : y1 = y2 := by
    have := padZeros_decStr_inj 4 y1.toNat y2.toNat hyear
    omega
  have hm : m1 = m2 :=
    padZeros_decStr_inj 2 m1 m2 (List.cons.inj hmonc).2
  have hd : d1 = d2 :=
    padZeros_decStr_inj 2 d1 d2 (List.cons.inj hright).2
  exact ⟨hy, hm, hd⟩

/-- C8 counterexample: with the environment's zone offset one hour ahead of
UTC, two records within the same UTC day (23:30 and 00:30 of 1970-01-01) are
indexed into different indices; with the offset one hour behind, two records
on different UTC days are indexed into the same index.  `Format` stamps the
local wall-clock date, not the UTC date. -/
theorem C8_utc_day_counterexample :
    GoTime.utcDays ({ sec := 84600, offset := 3600 }) =
      GoTime.utcDays ({ sec := 1800, offset := 3600 }) ∧
    (elasticsearchStreamer [] [(exLogNotJson, { sec := 84600, offset := 3600 }),
        (exLogNotJson, { sec := 1800, offset := 3600 })]).map Prod.fst =
      ["logstash-1970.01.02", "logstash-1970.01.01"] ∧
    ¬ GoTime.utcDays ({ sec := 84600, offset := -3600 }) =
      GoTime.utcDays ({ sec := 88200, offset := -3600 }) ∧
    (elasticsearchStreamer [] [(exLogNotJson, { sec := 84600, offset := -3600 }),
        (exLogNotJson, { sec := 88200, offset := -3600 })]).map Prod.fst =
      ["logstash-1970.01.01", "logstash-1970.01.01"] :=
  ⟨rfl, rfl, by decide, rfl⟩

/-- C8 (amended): every indexed record's target index is `logstash-` followed
by the current date in format YYYY.MM.DD of the local wall clock (the
instant as seen through the environment's zone offset), giving one index per
local calendar day: records whose local days coincide share the index, and
records whose local civil dates differ (within the representable range) get
different indices.  This is one index per UTC day exactly when the zone
offset is zero. -/
theorem C8_local_day_index (m : Option Doc) (l : Log) (now : GoTime) (idx : String)
    (doc : Doc) (t1 t2 : GoTime)
    (hstep : esStep m l now = some (idx, doc)) :
    idx = indexNameAt now ∧
    (t1.localDays = t2.localDays → indexNameAt t1 = indexNameAt t2) ∧
    (∀ y1 m1 d1 y2 m2 d2, civilFromDays t1.localDays = (y1, m1, d1) →
      civilFromDays t2.localDays = (y2, m2, d2) →
      0 ≤ y1 → y1 < 10000 → m1 < 100 → d1 < 100 →
      0 ≤ y2 → y2 < 10000 → m2 < 100 → d2 < 100 →
      ¬ (y1 = y2 ∧ m1 = m2 ∧ d1 = d2) →
      indexNameAt t1 ≠ indexNameAt t2) ∧
    (t1.offset = 0 → t1.localDays = t1.utcDays) := by
  refine ⟨(esStep_some_shape m l now idx doc hstep).1, ?_, ?_, ?_⟩
  · intro h
    rw [indexNameAt, indexNameAt, goFormatDateStamp, goFormatDateStamp, h]
  · intro y1 m1 d1 y2 m2 d2 hc1 hc2 a1 a2 a3 a4 b1 b2 b3 b4 hne heq
    rw [indexNameAt, indexNameAt, goFormatDateStamp, goFormatDateStamp, hc1, hc2] at heq
    have hfmt : formatDateStamp (y1, m1, d1) = formatDateStamp (y2, m2, d2) := by
      have := congrArg String.data heq
      rw [String.data_append, String.data_append] at this
      have := List.append_cancel_left this
      exact String.ext this
    exact hne (formatDateStamp_inj y1 y2 m1 d1 m2 d2 a1 a2 a3 a4 b1 b2 b3 b4 hfmt)
  · intro h
    rw [GoTime.localDays, GoTime.utcDays, h, Int.add_zero]

/-- C8 witness: one record at midnight 1970-01-01 UTC with zero offset. -/
theorem C8_local_day_index_witness :
    esStep none exLogNotJson exTime =
      some ("logstash-1970.01.01",
        [("@timestamp", DocVal.time exTime), ("message", DocVal.str "not json"),
         ("container", DocVal.str "web-1"), ("image", DocVal.str "img")]) ∧
    ("logstash-1970.01.01" : String) = indexNameAt exTime :=
  ⟨rfl, (C8_local_day_index none exLogNotJson exTime ("logstash-1970.01.01")
      ([("@timestamp", DocVal.time exTime), ("message", DocVal.str "not json"),
        ("container", DocVal.str "web-1"), ("image", DocVal.str "img")])
      exTime exTime rfl).1⟩

end Logspout
